import Mathlib

/-!
# fdroidcl: the index download and its cache (cmd/fdroidcl/update.go)

A shallow embedding of `updateIndex`, `respEtag`, `downloadEtag`, `indexPath` and
`appSubdir`, with the library functions they rest on: `sha256.Sum256`,
`filepath.Join` and `filepath.Clean` (Unix).

* The file system is a finite map from paths to file contents, threaded through
  `downloadEtag` explicitly.
* Everything the program asks of its surroundings (URL parsing in
  `http.NewRequest`, the HTTP round trip of `client.Do`, failures of opening and
  writing files, the cache directory) is a field of `Env`.
* A call ends in one of three ways: it returns `nil`, it returns an error, or it
  panics on a nil pointer.
* Go `string` values that are file names, URLs, header keys and messages are Lean
  strings; file contents, response bodies, digests and header values are byte
  lists, so that `string(etag)` and `[]byte(respEtag(resp))` are the identity.
-/

namespace Fdroidcl

/-- Byte strings: file contents, response bodies, digests, header values. -/
abbrev Bytes := List UInt8

/-- The bytes of a text literal. -/
def bytes (s : String) : Bytes := s.toUTF8.data.toList

/-- A Go `error` value, identified by its message. -/
abbrev Error := String

/-! ## crypto/sha256 -/

namespace sha256

/-- Round constants. -/
def K : List Nat := [
  0x428a2f98, 0x71374491, 0xb5c0fbcf, 0xe9b5dba5, 0x3956c25b, 0x59f111f1, 0x923f82a4, 0xab1c5ed5,
  0xd807aa98, 0x12835b01, 0x243185be, 0x550c7dc3, 0x72be5d74, 0x80deb1fe, 0x9bdc06a7, 0xc19bf174,
  0xe49b69c1, 0xefbe4786, 0x0fc19dc6, 0x240ca1cc, 0x2de92c6f, 0x4a7484aa, 0x5cb0a9dc, 0x76f988da,
  0x983e5152, 0xa831c66d, 0xb00327c8, 0xbf597fc7, 0xc6e00bf3, 0xd5a79147, 0x06ca6351, 0x14292967,
  0x27b70a85, 0x2e1b2138, 0x4d2c6dfc, 0x53380d13, 0x650a7354, 0x766a0abb, 0x81c2c92e, 0x92722c85,
  0xa2bfe8a1, 0xa81a664b, 0xc24b8b70, 0xc76c51a3, 0xd192e819, 0xd6990624, 0xf40e3585, 0x106aa070,
  0x19a4c116, 0x1e376c08, 0x2748774c, 0x34b0bcb5, 0x391c0cb3, 0x4ed8aa4a, 0x5b9cca4f, 0x682e6ff3,
  0x748f82ee, 0x78a5636f, 0x84c87814, 0x8cc70208, 0x90befffa, 0xa4506ceb, 0xbef9a3f7, 0xc67178f2]

/-- Modulus of 32-bit words. -/
def W32 : Nat := 4294967296

/-- Rotate a 32-bit word right by `n` bits. -/
def rotr (x n : Nat) : Nat := ((x >>> n) ||| (x <<< (32 - n))) % W32

/-- The `len` low-order bytes of `n`, most significant first. -/
def bigEndian (n len : Nat) : List Nat :=
  (List.range len).map (fun i => (n >>> (8 * (len - 1 - i))) % 256)

/-- Message padding: a 1 bit, zeros up to 56 mod 64, then the bit length on 8 bytes. -/
def pad (msg : List Nat) : List Nat :=
  msg ++ [0x80] ++ List.replicate ((119 - msg.length % 64) % 64) 0 ++ bigEndian (8 * msg.length) 8

/-- Big-endian value of a byte group. -/
def word (bs : List Nat) : Nat := bs.foldl (fun acc b => acc * 256 + b) 0

/-- Cut a list into at most `fuel` groups of `n` elements. -/
def chunks (n : Nat) : Nat → List Nat → List (List Nat)
  | 0, _ => []
  | fuel + 1, xs => if xs = [] then [] else xs.take n :: chunks n fuel (xs.drop n)

/-- The 64-word message schedule of one 64-byte block. -/
def schedule (block : List Nat) : List Nat :=
  (List.range 48).foldl (fun w _ =>
    let n := w.length
    let a := w.getD (n - 2) 0
    let b := w.getD (n - 7) 0
    let c := w.getD (n - 15) 0
    let d := w.getD (n - 16) 0
    let s0 := rotr c 7 ^^^ rotr c 18 ^^^ (c >>> 3)
    let s1 := rotr a 17 ^^^ rotr a 19 ^^^ (a >>> 10)
    w ++ [(d + s0 + b + s1) % W32]) ((chunks 4 16 block).map word)

/-- The eight working variables. -/
structure St where
  a : Nat
  b : Nat
  c : Nat
  d : Nat
  e : Nat
  f : Nat
  g : Nat
  h : Nat
deriving DecidableEq, Repr

/-- One round, with round constant `kw.1` and schedule word `kw.2`. -/
def round (s : St) (kw : Nat × Nat) : St :=
  let S1 := rotr s.e 6 ^^^ rotr s.e 11 ^^^ rotr s.e 25
  let ch := (s.e &&& s.f) ^^^ ((W32 - 1 - s.e) &&& s.g)
  let t1 := (s.h + S1 + ch + kw.1 + kw.2) % W32
  let S0 := rotr s.a 2 ^^^ rotr s.a 13 ^^^ rotr s.a 22
  let maj := (s.a &&& s.b) ^^^ (s.a &&& s.c) ^^^ (s.b &&& s.c)
  let t2 := (S0 + maj) % W32
  { a := (t1 + t2) % W32, b := s.a, c := s.b, d := s.c,
    e := (s.d + t1) % W32, f := s.e, g := s.f, h := s.g }

/-- Compression of one block into the running hash. -/
def compress (s : St) (block : List Nat) : St :=
  let t := (K.zip (schedule block)).foldl round s
  { a := (s.a + t.a) % W32, b := (s.b + t.b) % W32, c := (s.c + t.c) % W32,
    d := (s.d + t.d) % W32, e := (s.e + t.e) % W32, f := (s.f + t.f) % W32,
    g := (s.g + t.g) % W32, h := (s.h + t.h) % W32 }

/-- The initial hash value. -/
def init : St :=
  ⟨0x6a09e667, 0xbb67ae85, 0x3c6ef372, 0xa54ff53a, 0x510e527f, 0x9b05688c, 0x1f83d9ab, 0x5be0cd19⟩

/-- The digest of a message given as byte values. -/
def sumNat (msg : List Nat) : List Nat :=
  let p := pad msg
  let s := (chunks 64 (p.length / 64) p).foldl compress init
  [s.a, s.b, s.c, s.d, s.e, s.f, s.g, s.h].flatMap (fun w => bigEndian w 4)

/-- The Go function `sha256.Sum256`, its `[32]byte` result as a byte list. -/
def Sum256 (data : Bytes) : Bytes :=
  (sumNat (data.map UInt8.toNat)).map UInt8.ofNat

end sha256

/-! ## The file system -/

/-- The regular files: path and content, each path at most once in use (the first
entry for a path is the file). -/
abbrev FS := List (String × Bytes)

/-- Content of the file at `p`, `none` when there is no such file. -/
def FS.read (fs : FS) (p : String) : Option Bytes := fs.lookup p

/-- Replace the content of the file at `p`, creating the file when absent. -/
def FS.write : FS → String → Bytes → FS
  | [], p, b => [(p, b)]
  | (q, c) :: fs, p, b => if q = p then (p, b) :: fs else (q, c) :: FS.write fs p b

/-- Write `b` at the end of the file at `p`. -/
def FS.append (fs : FS) (p : String) (b : Bytes) : FS :=
  fs.write p ((fs.read p).getD [] ++ b)

/-! ## net/http -/

/-- An `http.Header`: the values recorded under each key. -/
abbrev Header := List (String × List Bytes)

/-- Go's `Header.Add`: append `v` to the values under `k`. The keys this program
adds are already in canonical form. -/
def Header.Add : Header → String → Bytes → Header
  | [], k, v => [(k, [v])]
  | (k0, vs) :: h, k, v =>
    if k0 = k then (k0, vs ++ [v]) :: h else (k0, vs) :: Header.Add h k v

/-- An `http.Request` without a body. -/
structure Request where
  method : String
  url : String
  header : Header
deriving DecidableEq, Repr

/-- A response body stream: it yields `data`, then ends, with `err` when the
transfer breaks off there. -/
structure Body where
  data : Bytes
  err : Option Error
deriving DecidableEq, Repr

/-- An `http.Response`. -/
structure Response where
  statusCode : Nat
  header : Header
  body : Body
deriving DecidableEq, Repr

/-- The constant `http.StatusNotModified`. -/
def StatusNotModified : Nat := 304

/-- The constant `http.StatusOK`. -/
def StatusOK : Nat := 200

/-- What the program asks of its surroundings. -/
structure Env where
  /-- The error of `url.Parse` inside `http.NewRequest`, if the URL is malformed. -/
  urlErr : String → Option Error
  /-- The round trip of `client.Do` for a request. -/
  roundTrip : Request → Except Error Response
  /-- The error of opening a file for writing with `O_CREATE|O_TRUNC`, if it fails. -/
  openErr : String → Option Error
  /-- When `some (n, e)`, the file at the path takes `n` bytes, then writing fails with `e`. -/
  writeCap : String → Option (Nat × Error)
  /-- The result of `basedir.Cache()`. -/
  cacheDir : Except Error String
  /-- The error of `os.MkdirAll`, if it fails. -/
  mkdirErr : String → Option Error
  /-- The global `repoName`. -/
  repoName : String
  /-- The global `repoURL`. -/
  repoURL : String

/-- Go's `http.NewRequest(method, url, nil)`: a request with an empty header, or
the URL's parse error. -/
def NewRequest (env : Env) (method url : String) : Except Error Request :=
  match env.urlErr url with
  | some e => .error e
  | none => .ok { method := method, url := url, header := [] }

/-- Writing `data` to the open file at `p`: the bytes that reach the file, and the
error if not all of them do. -/
def Env.write (env : Env) (p : String) (data : Bytes) : Bytes × Option Error :=
  match env.writeCap p with
  | some (n, e) => if n < data.length then (data.take n, some e) else (data, none)
  | none => (data, none)

/-- Go's `ioutil.WriteFile(p, data, 0644)`: open with truncation, write, close. -/
def WriteFile (env : Env) (fs : FS) (p : String) (data : Bytes) : FS × Option Error :=
  match env.openErr p with
  | some e => (fs, some e)
  | none =>
    let w := env.write p data
    ((fs.write p []).append p w.1, w.2)

/-! ## update.go -/

/-- How a call ends. -/
inductive Result where
  /-- The call returns `nil`. -/
  | ok
  /-- The call returns an error. -/
  | err (e : Error)
  /-- The call panics (nil pointer dereference) at the named operation. -/
  | panic (at_ : String)
deriving DecidableEq, Repr

/-- The state after a call of `downloadEtag`. -/
structure Run where
  result : Result
  /-- The files after the call. -/
  fs : FS
  /-- What the call printed. -/
  stdout : String
  /-- The arguments of the calls of `client.Do`, in order (`none`: a nil request). -/
  sent : List (Option Request)
deriving DecidableEq, Repr

/-- The function `respEtag` (update.go:45). -/
def respEtag (resp : Response) : Bytes :=
  match resp.header.lookup "Etag" with
  | none => []
  | some [] => []
  | some (e :: _) => e

/-- The function `downloadEtag` (update.go:53). The deferred `fmt.Println()` runs
however the call ends. -/
def downloadEtag (env : Env) (fs : FS) (url path : String) (sum : Option Bytes) : Run :=
  let out := "Downloading " ++ url ++ "... "
  -- req, err := http.NewRequest("GET", url, nil); err is not looked at
  let req : Option Request := (NewRequest env "GET" url).toOption
  let etagPath := path ++ "-etag"
  -- if _, err := os.Stat(path); err == nil { etag, _ := ReadFile; req.Header.Add }
  let prepared : Option (Option Request) :=
    if (fs.read path).isSome then
      let etag := (fs.read etagPath).getD []
      match req with
      | none => none
      | some r => some (some { r with header := r.header.Add "If-None-Match" etag })
    else some req
  match prepared with
  | none => ⟨.panic "req.Header.Add", fs, out ++ "\n", []⟩
  | some none => ⟨.panic "client.Do", fs, out ++ "\n", [none]⟩
  | some (some r) =>
    match env.roundTrip r with
    | .error e => ⟨.err e, fs, out ++ "\n", [some r]⟩
    | .ok resp =>
      if resp.statusCode = StatusNotModified then
        ⟨.ok, fs, out ++ "not modified" ++ "\n", [some r]⟩
      else
        -- f, err := os.OpenFile(path, os.O_RDWR|os.O_CREATE|os.O_TRUNC, 0644)
        match env.openErr path with
        | some e => ⟨.err e, fs, out ++ "\n", [some r]⟩
        | none =>
          let fs1 := fs.write path []
          let copied : FS × Option Error :=
            match sum with
            | none =>
              -- io.Copy(f, resp.Body)
              let w := env.write path resp.body.data
              (fs1.append path w.1, match w.2 with | some e => some e | none => resp.body.err)
            | some s =>
              -- data, err := ioutil.ReadAll(resp.Body)
              match resp.body.err with
              | some e => (fs1, some e)
              | none =>
                let got := sha256.Sum256 resp.body.data
                if s ≠ got then (fs1, some "sha256 mismatch")
                else
                  let w := env.write path resp.body.data
                  (fs1.append path w.1, w.2)
          match copied.2 with
          | some e => ⟨.err e, copied.1, out ++ "\n", [some r]⟩
          | none =>
            match WriteFile env copied.1 etagPath (respEtag resp) with
            | (fs2, some e) => ⟨.err e, fs2, out ++ "\n", [some r]⟩
            | (fs2, none) => ⟨.ok, fs2, out ++ "done" ++ "\n", [some r]⟩

/-! ## path/filepath (Unix) -/

namespace filepath

/-- The elements of a path between its separators. -/
def splitSep : List Char → List (List Char)
  | [] => [[]]
  | c :: cs =>
    if c = '/' then [] :: splitSep cs
    else
      match splitSep cs with
      | [] => [[c]]
      | el :: els => (c :: el) :: els

/-- One turn of the loop of `Clean`: `out` is the elements written so far, the
last one first. Empty elements and `.` are dropped; `..` removes the last element
when there is one that is not `..` itself, stays when the path is not rooted, and
is dropped at the root. -/
def step (rooted : Bool) (out : List (List Char)) (el : List Char) : List (List Char) :=
  if el = [] ∨ el = ['.'] then out
  else if el = ['.', '.'] then
    match out with
    | top :: rest =>
      if top ≠ ['.', '.'] then rest
      else if rooted then out else el :: out
    | [] => if rooted then out else [el]
  else el :: out

/-- The elements joined by separators, after the root when rooted; an empty result
is `.`. -/
def render (rooted : Bool) (out : List (List Char)) : List Char :=
  if rooted then '/' :: List.intercalate ['/'] out.reverse
  else if out = [] then ['.']
  else List.intercalate ['/'] out.reverse

/-- Go's `filepath.Clean` on the characters of a non-empty path. -/
def cleanChars (path : List Char) : List Char :=
  let rooted := path.head? = some '/'
  render rooted ((splitSep path).foldl (step rooted) [])

/-- Go's `filepath.Clean`. -/
def Clean (path : String) : String :=
  if path = "" then "." else String.mk (cleanChars path.data)

/-- Go's `filepath.Join`: empty leading elements are skipped, the rest is joined
with separators and cleaned. -/
def Join : List String → String
  | [] => ""
  | e :: es => if e = "" then Join es else Clean ("/".intercalate (e :: es))

/-- What the loop of `Clean` keeps in `out`: elements without separator, none empty
and none `.`; an element `..` only in a path that is not rooted, and only on top of
other `..` elements. -/
def Cleaned (rooted : Bool) : List (List Char) → Prop
  | [] => True
  | el :: rest =>
    el ≠ [] ∧ el ≠ ['.'] ∧ '/' ∉ el ∧
    (el = ['.', '.'] → rooted = false ∧ ∀ x ∈ rest, x = ['.', '.']) ∧
    Cleaned rooted rest

end filepath

/-- The function `appSubdir` (update.go:112); an error result is the message of
`log.Fatalf`, which ends the process. Directories are not part of `FS`, so that
`os.MkdirAll` shows only through its error. -/
def appSubdir (env : Env) (dir : String) (subdir : List String) : Except String String :=
  let elems := [dir, "fdroidcl"] ++ subdir
  let p := filepath.Join elems
  match env.mkdirErr p with
  | some e => .error ("Could not create app dir: " ++ e)
  | none => .ok p

set_option linter.unusedVariables false in
/-- The function `indexPath` (update.go:104); an error result is the message of
`log.Fatalf`. -/
def indexPath (env : Env) (name : String) : Except String String :=
  match env.cacheDir with
  | .error e => .error ("Could not determine cache dir: " ++ e)
  | .ok cache =>
    match appSubdir env cache [] with
    | .error m => .error m
    | .ok dir => .ok (filepath.Join [dir, env.repoName ++ ".jar"])

/-- The function `updateIndex` (update.go:37); an error result is the message of
`log.Fatalf` from `indexPath`. -/
def updateIndex (env : Env) (fs : FS) : Except String Run :=
  let url := env.repoURL ++ "/" ++ "index.jar"
  match indexPath env env.repoName with
  | .error m => .error m
  | .ok path => .ok (downloadEtag env fs url path none)

/-! ## Sample surroundings -/

/-- A server that answers every request with status 200, the body `INDEXDATA` and
the entity tag `abc123`; no failure of the disk. -/
def sampleEnv : Env :=
  { urlErr := fun _ => none
    roundTrip := fun _ => .ok ⟨200, [("Etag", [bytes "abc123"])], ⟨bytes "INDEXDATA", none⟩⟩
    openErr := fun _ => none
    writeCap := fun _ => none
    cacheDir := .ok "/home/u/.cache"
    mkdirErr := fun _ => none
    repoName := "fdroid"
    repoURL := "https://f-droid.org/repo" }

/-- The surroundings `sampleEnv` with another server. -/
def sampleEnv.withServer (rt : Request → Except Error Response) : Env :=
  { sampleEnv with roundTrip := rt }

/-- The surroundings `sampleEnv` where no URL parses. -/
def badUrlEnv : Env :=
  { sampleEnv with urlErr := fun _ => some "missing protocol scheme" }

/-- A server with new content: status 200, the body `NEWDATA`, the entity tag `def456`. -/
def serverNewData : Request → Except Error Response :=
  fun _ => .ok ⟨200, [("Etag", [bytes "def456"])], ⟨bytes "NEWDATA", none⟩⟩

/-- A server that answers 304 Not Modified. -/
def serverNotModified : Request → Except Error Response :=
  fun _ => .ok ⟨304, [("Etag", [bytes "abc123"])], ⟨[], none⟩⟩

/-- A server that answers 404 with an error page. -/
def serverNotFound : Request → Except Error Response :=
  fun _ => .ok ⟨404, [], ⟨bytes "404 page not found", none⟩⟩

/-- A server that sends a body and no entity tag. -/
def serverNoEtag : Request → Except Error Response :=
  fun _ => .ok ⟨200, [("Content-Type", [bytes "application/java-archive"])],
    ⟨bytes "NEWDATA", none⟩⟩

/-- A server that cannot be reached. -/
def serverDown : Request → Except Error Response :=
  fun _ => .error "dial tcp: connection refused"

/-- The URL of the index. -/
def sampleURL : String := "https://f-droid.org/repo/index.jar"

/-- The path of the body record. -/
def samplePath : String := "/home/u/.cache/fdroidcl/fdroid.jar"

/-- A cache that holds the body `INDEXDATA` and the token `abc123`. -/
def cachedFS : FS :=
  [(samplePath, bytes "INDEXDATA"), (samplePath ++ "-etag", bytes "abc123")]

/-- A cache that holds a longer body than `NEWDATA`, and the token `abc123`. -/
def staleFS : FS :=
  [(samplePath, bytes "OLD INDEX DATA, LONGER"), (samplePath ++ "-etag", bytes "abc123")]

/-- A cache with a token record and no body record. -/
def tokenOnlyFS : FS := [(samplePath ++ "-etag", bytes "abc123")]

/-- A cache with a body record and no token record. -/
def bodyOnlyFS : FS := [(samplePath, bytes "INDEXDATA")]

/-- A digest that is not the digest of `NEWDATA`: 32 zero bytes. -/
def wrongDigest : Bytes := List.replicate 32 0

/-! ## Facts about `sha256.Sum256` -/

namespace sha256

/-- A digest has 32 bytes. -/
theorem Sum256_length (data : Bytes) : (Sum256 data).length = 32 := by
  simp [Sum256, sumNat, bigEndian]

set_option maxRecDepth 100000 in
/-- The test vector `abc` of FIPS 180. -/
theorem Sum256_abc :
    Sum256 (bytes "abc") =
      [0xba, 0x78, 0x16, 0xbf, 0x8f, 0x01, 0xcf, 0xea, 0x41, 0x41, 0x40, 0xde, 0x5d, 0xae,
       0x22, 0x23, 0xb0, 0x03, 0x61, 0xa3, 0x96, 0x17, 0x7a, 0x9c, 0xb4, 0x10, 0xff, 0x61,
       0xf2, 0x00, 0x15, 0xad] := by
  decide

set_option maxRecDepth 100000 in
/-- The two-block test vector of FIPS 180. -/
theorem Sum256_two_blocks :
    Sum256 (bytes "abcdbcdecdefdefgefghfghighijhijkijkljklmklmnlmnomnopnopq") =
      [0x24, 0x8d, 0x6a, 0x61, 0xd2, 0x06, 0x38, 0xb8, 0xe5, 0xc0, 0x26, 0x93, 0x0c, 0x3e,
       0x60, 0x39, 0xa3, 0x3c, 0xe4, 0x59, 0x64, 0xff, 0x21, 0x67, 0xf6, 0xec, 0xed, 0xd4,
       0x19, 0xdb, 0x06, 0xc1] := by
  decide

set_option maxRecDepth 100000 in
/-- The digest of `NEWDATA`. -/
theorem Sum256_NEWDATA :
    Sum256 (bytes "NEWDATA") =
      [0xab, 0x02, 0xc5, 0x03, 0xfc, 0x8f, 0xfe, 0x15, 0xd5, 0xa1, 0x06, 0x6c, 0x81, 0x17,
       0x07, 0x0b, 0x6f, 0x81, 0x6e, 0xdc, 0xc1, 0x24, 0x1b, 0x89, 0x5f, 0x18, 0x07, 0x1e,
       0x29, 0x5c, 0x33, 0x22] := by
  decide

end sha256

/-! ## Facts about `filepath.Clean` and `filepath.Join` -/

namespace filepath

theorem splitSep_ne_nil (l : List Char) : splitSep l ≠ [] := by
  cases l with
  | nil => simp [splitSep]
  | cons c cs =>
    unfold splitSep
    split
    · simp
    · split <;> simp

theorem splitSep_append_sep (a b : List Char) :
    splitSep (a ++ '/' :: b) = splitSep a ++ splitSep b := by
  induction a with
  | nil => simp [splitSep]
  | cons c cs ih =>
    by_cases hc : c = '/'
    · simp [splitSep, hc, ih]
    · cases hs : splitSep cs with
      | nil => exact absurd hs (splitSep_ne_nil cs)
      | cons el els =>
        simp [splitSep, hc, ih, hs]

theorem splitSep_no_sep (l el : List Char) (h : el ∈ splitSep l) : '/' ∉ el := by
  induction l generalizing el with
  | nil =>
    simp [splitSep] at h
    simp [h]
  | cons c cs ih =>
    by_cases hc : c = '/'
    · simp only [splitSep, hc, if_true, List.mem_cons] at h
      rcases h with h | h
      · simp [h]
      · exact ih el h
    · cases hs : splitSep cs with
      | nil => exact absurd hs (splitSep_ne_nil cs)
      | cons e es =>
        simp only [splitSep, hc, if_false, hs, List.mem_cons] at h
        rcases h with h | h
        · subst h
          have := ih e (by simp [hs])
          simp only [List.mem_cons, not_or]
          exact ⟨fun h => hc h.symm, this⟩
        · exact ih el (by simp [hs, h])

theorem splitSep_of_no_sep (el : List Char) (h : '/' ∉ el) : splitSep el = [el] := by
  induction el with
  | nil => simp [splitSep]
  | cons c cs ih =>
    simp only [List.mem_cons, not_or] at h
    have hc : c ≠ '/' := fun e => h.1 e.symm
    simp [splitSep, hc, ih h.2]

theorem intercalate_cons_cons (x y : List Char) (ys : List (List Char)) :
    List.intercalate ['/'] (x :: y :: ys) = x ++ '/' :: List.intercalate ['/'] (y :: ys) := by
  simp [List.intercalate, List.intersperse]

theorem splitSep_intercalate (els : List (List Char)) (hne : els ≠ [])
    (h : ∀ el ∈ els, '/' ∉ el) : splitSep (List.intercalate ['/'] els) = els := by
  induction els with
  | nil => exact absurd rfl hne
  | cons x xs ih =>
    cases xs with
    | nil =>
      simpa [List.intercalate, List.intersperse] using splitSep_of_no_sep x (h x (by simp))
    | cons y ys =>
      rw [intercalate_cons_cons, splitSep_append_sep,
        splitSep_of_no_sep x (h x (by simp)),
        ih (by simp) (fun el hel => h el (List.mem_cons_of_mem _ hel))]
      rfl


theorem step_cleaned (r : Bool) (out : List (List Char)) (el : List Char)
    (hout : Cleaned r out) (hel : '/' ∉ el) : Cleaned r (step r out el) := by
  unfold step
  by_cases h1 : el = [] ∨ el = ['.']
  · simpa [h1] using hout
  · simp only [h1, if_false]
    have h1a : el ≠ [] := fun h => h1 (Or.inl h)
    have h1b : el ≠ ['.'] := fun h => h1 (Or.inr h)
    by_cases h2 : el = ['.', '.']
    · simp only [h2, if_true]
      cases out with
      | nil =>
        cases r <;> simp [Cleaned]
      | cons top rest =>
        obtain ⟨t1, t2, t3, t4, t5⟩ := hout
        by_cases h3 : top = ['.', '.']
        · cases r with
          | true => simpa [h3, Cleaned] using t4 h3
          | false =>
            have hall := (t4 h3).2
            have hgoal : Cleaned false (['.', '.'] :: top :: rest) :=
              ⟨by simp, by simp, by simp,
               fun _ => ⟨rfl, fun x hx => (List.mem_cons.1 hx).elim (fun e => e ▸ h3) (hall x)⟩,
               t1, t2, t3, t4, t5⟩
            simpa [h3] using hgoal
        · simpa [h3] using t5
    · simp only [h2, if_false]
      exact ⟨h1a, h1b, hel, fun h => absurd h h2, hout⟩

theorem foldl_step_cleaned (r : Bool) (els : List (List Char)) (out : List (List Char))
    (hout : Cleaned r out) (hels : ∀ el ∈ els, '/' ∉ el) :
    Cleaned r (els.foldl (step r) out) := by
  induction els generalizing out with
  | nil => simpa using hout
  | cons el els ih =>
    simp only [List.foldl_cons]
    exact ih _ (step_cleaned r out el hout (hels el (by simp)))
      (fun x hx => hels x (List.mem_cons_of_mem _ hx))

/-- Running the loop over the elements it kept gives them back. -/
theorem foldl_step_reverse (r : Bool) (out : List (List Char)) (hout : Cleaned r out) :
    out.reverse.foldl (step r) [] = out := by
  induction out with
  | nil => rfl
  | cons el rest ih =>
    obtain ⟨t1, t2, t3, t4, t5⟩ := hout
    rw [List.reverse_cons, List.foldl_append, ih t5]
    simp only [List.foldl_cons, List.foldl_nil]
    unfold step
    have h1 : ¬ (el = [] ∨ el = ['.']) := fun h => h.elim t1 t2
    simp only [h1, if_false]
    by_cases h2 : el = ['.', '.']
    · obtain ⟨hr, hall⟩ := t4 h2
      subst hr
      cases rest with
      | nil => simp [h2]
      | cons top rest2 =>
        have ht : top = ['.', '.'] := hall top (by simp)
        simp [h2, ht]
    · simp [h2]

theorem cleaned_no_sep (r : Bool) (out : List (List Char)) (hout : Cleaned r out) :
    ∀ el ∈ out, el ≠ [] ∧ '/' ∉ el := by
  induction out with
  | nil => simp
  | cons el rest ih =>
    obtain ⟨t1, _, t3, _, t5⟩ := hout
    intro x hx
    rcases List.mem_cons.1 hx with hx | hx
    · subst hx
      exact ⟨t1, t3⟩
    · exact ih t5 x hx

/-- Cleaning what `Clean` wrote finds the same elements. -/
theorem foldl_step_render (r : Bool) (out : List (List Char)) (hout : Cleaned r out) :
    (splitSep (render r out)).foldl (step r) [] = out := by
  have hsep : ∀ el ∈ out.reverse, '/' ∉ el :=
    fun el hel => (cleaned_no_sep r out hout el (List.mem_reverse.1 hel)).2
  unfold render
  by_cases hnil : out = []
  · subst hnil
    cases r <;> simp [splitSep, step, List.intercalate]
  · have hrev : out.reverse ≠ [] := by simpa using hnil
    cases r with
    | true =>
      simp only [if_true, splitSep, splitSep_intercalate _ hrev hsep, List.foldl_cons]
      have : step true [] [] = [] := by simp [step]
      rw [this]
      exact foldl_step_reverse true out hout
    | false =>
      simp only [Bool.false_eq_true, if_false, hnil, splitSep_intercalate _ hrev hsep]
      exact foldl_step_reverse false out hout


theorem intercalate_head (x : List Char) (xs : List (List Char)) (hx : x ≠ []) :
    (List.intercalate ['/'] (x :: xs)).head? = x.head? := by
  cases x with
  | nil => exact absurd rfl hx
  | cons c cs =>
    cases xs with
    | nil => simp [List.intercalate, List.intersperse]
    | cons y ys => simp [intercalate_cons_cons]

/-- What `Clean` writes starts with a separator exactly when the path is rooted. -/
theorem render_head (r : Bool) (out : List (List Char)) (hout : Cleaned r out) :
    decide ((render r out).head? = some '/') = r := by
  unfold render
  cases r with
  | true => simp
  | false =>
    by_cases hnil : out = []
    · simp [hnil]
    · simp only [Bool.false_eq_true, if_false, hnil]
      cases hrev : out.reverse with
      | nil => exact absurd (by simpa using hrev) hnil
      | cons x xs =>
        have hx : x ∈ out := List.mem_reverse.1 (by simp [hrev])
        obtain ⟨hx1, hx2⟩ := cleaned_no_sep false out hout x hx
        rw [intercalate_head x xs hx1]
        cases x with
        | nil => exact absurd rfl hx1
        | cons c cs =>
          simp only [List.mem_cons, not_or] at hx2
          have : c ≠ '/' := fun e => hx2.1 e.symm
          simp [this]

theorem render_ne_nil (r : Bool) (out : List (List Char)) (hout : Cleaned r out) :
    render r out ≠ [] := by
  intro h
  have := render_head r out hout
  rw [h] at this
  cases r with
  | true => simp at this
  | false =>
    unfold render at h
    by_cases hnil : out = []
    · simp [hnil] at h
    · simp only [Bool.false_eq_true, if_false, hnil] at h
      cases hrev : out.reverse with
      | nil => exact absurd (by simpa using hrev) hnil
      | cons x xs =>
        have hx : x ∈ out := List.mem_reverse.1 (by simp [hrev])
        have hx1 := (cleaned_no_sep false out hout x hx).1
        have hh := intercalate_head x xs hx1
        rw [← hrev, h] at hh
        cases x with
        | nil => exact absurd rfl hx1
        | cons c cs => simp at hh

theorem cleaned_foldl_splitSep (q : List Char) (r : Bool) :
    Cleaned r ((splitSep q).foldl (step r) []) :=
  foldl_step_cleaned r (splitSep q) [] trivial (fun el hel => splitSep_no_sep q el hel)

theorem cleanChars_ne_nil (q : List Char) : cleanChars q ≠ [] :=
  render_ne_nil _ _ (cleaned_foldl_splitSep q _)

/-- Cleaning a path, then joining a further part and cleaning again, is cleaning the
whole at once. -/
theorem cleanChars_append (q x : List Char) (hq : q ≠ []) :
    cleanChars (cleanChars q ++ '/' :: x) = cleanChars (q ++ '/' :: x) := by
  have hc := cleaned_foldl_splitSep q (decide (q.head? = some '/'))
  have hr1 : decide ((cleanChars q ++ '/' :: x).head? = some '/')
      = decide (q.head? = some '/') := by
    rw [List.head?_append_of_ne_nil _ (cleanChars_ne_nil q)]
    exact render_head _ _ hc
  have hr2 : decide ((q ++ '/' :: x).head? = some '/') = decide (q.head? = some '/') := by
    rw [List.head?_append_of_ne_nil _ hq]
  have hfold : (splitSep (cleanChars q)).foldl (step (decide (q.head? = some '/'))) []
      = (splitSep q).foldl (step (decide (q.head? = some '/'))) [] :=
    foldl_step_render _ _ hc
  show render (decide ((cleanChars q ++ '/' :: x).head? = some '/'))
        ((splitSep (cleanChars q ++ '/' :: x)).foldl
          (step (decide ((cleanChars q ++ '/' :: x).head? = some '/'))) [])
      = render (decide ((q ++ '/' :: x).head? = some '/'))
        ((splitSep (q ++ '/' :: x)).foldl (step (decide ((q ++ '/' :: x).head? = some '/'))) [])
  rw [hr1, hr2, splitSep_append_sep, splitSep_append_sep, List.foldl_append, List.foldl_append,
    hfold]

theorem Clean_ne_empty (p : String) : Clean p ≠ "" := by
  unfold Clean
  by_cases h : p = ""
  · simp [h]
  · simp only [h, if_false]
    intro hh
    have := congrArg String.data hh
    exact cleanChars_ne_nil p.data this

theorem Clean_append (q x : String) (hq : q ≠ "") :
    Clean (Clean q ++ "/" ++ x) = Clean (q ++ "/" ++ x) := by
  have hqd : q.data ≠ [] := fun h => hq (String.ext h)
  have h1 : Clean q ++ "/" ++ x ≠ "" := by
    intro h
    have := congrArg String.data h
    simp at this
  have h2 : q ++ "/" ++ x ≠ "" := by
    intro h
    have := congrArg String.data h
    simp at this
  have hcq : (Clean q).data = cleanChars q.data := by
    simp [Clean, hq]
  rw [Clean.eq_1 (Clean q ++ "/" ++ x), Clean.eq_1 (q ++ "/" ++ x), if_neg h1, if_neg h2]
  congr 1
  simp only [String.data_append, hcq]
  simpa using cleanChars_append q.data x.data hqd

/-- Joining in two steps is joining at once. -/
theorem Join_Join (d x : String) :
    Join [Join [d, "fdroidcl"], x] = Join [d, "fdroidcl", x] := by
  by_cases hd : d = ""
  · subst hd
    have h : Join ["", "fdroidcl"] = "fdroidcl" := by decide
    rw [h]
    rfl
  · have h1 : Join [d, "fdroidcl"] = Clean (d ++ "/" ++ "fdroidcl") := by
      simp [Join, hd, String.intercalate, String.intercalate.go]
    have h2 : Join [d, "fdroidcl", x] = Clean (d ++ "/" ++ "fdroidcl" ++ "/" ++ x) := by
      simp [Join, hd, String.intercalate, String.intercalate.go]
    have h3 : d ++ "/" ++ "fdroidcl" ≠ "" := by
      intro h
      have := congrArg String.data h
      simp at this
    rw [h1, h2, ← Clean_append _ x h3]
    simp [Join, Clean_ne_empty, String.intercalate, String.intercalate.go]

end filepath

/-! ## Facts about the file system -/

theorem FS.read_write_same (fs : FS) (p : String) (b : Bytes) :
    (fs.write p b).read p = some b := by
  induction fs with
  | nil => simp [FS.write, FS.read, List.lookup]
  | cons hd tl ih =>
    obtain ⟨q, c⟩ := hd
    by_cases h : q = p
    · simp [FS.write, FS.read, List.lookup, h]
    · have hne : (p == q) = false := by simpa using fun e => h e.symm
      simpa [FS.write, FS.read, List.lookup, h, hne] using ih

theorem FS.read_write_ne (fs : FS) (p q : String) (b : Bytes) (h : q ≠ p) :
    (fs.write p b).read q = fs.read q := by
  induction fs with
  | nil =>
    have hne : (q == p) = false := by simpa using h
    simp [FS.write, FS.read, List.lookup, hne]
  | cons hd tl ih =>
    obtain ⟨r, c⟩ := hd
    by_cases hr : r = p
    · subst hr
      have hne : (q == r) = false := by simpa using h
      simp [FS.write, FS.read, List.lookup, hne]
    · by_cases hq : q = r
      · subst hq
        simp [FS.write, FS.read, List.lookup, hr]
      · have hne : (q == r) = false := by simpa using hq
        simpa [FS.write, FS.read, List.lookup, hr, hne] using ih

theorem FS.read_append_same (fs : FS) (p : String) (b : Bytes) :
    (fs.append p b).read p = some ((fs.read p).getD [] ++ b) := by
  simp [FS.append, FS.read_write_same]

theorem FS.read_append_ne (fs : FS) (p q : String) (b : Bytes) (h : q ≠ p) :
    (fs.append p b).read q = fs.read q := by
  simp [FS.append, FS.read_write_ne _ _ _ _ h]

/-- Truncating a file and writing `b` into it leaves exactly `b`. -/
theorem FS.read_truncate_append (fs : FS) (p : String) (b : Bytes) :
    ((fs.write p []).append p b).read p = some b := by
  simp [FS.read_append_same, FS.read_write_same]

theorem FS.read_truncate_append_ne (fs : FS) (p q : String) (b : Bytes) (h : q ≠ p) :
    ((fs.write p []).append p b).read q = fs.read q := by
  rw [FS.read_append_ne _ _ _ _ h, FS.read_write_ne _ _ _ _ h]

/-- The token record is another file than the body record. -/
theorem etagPath_ne (path : String) : path ++ "-etag" ≠ path := by
  intro h
  have := congrArg String.length h
  simp [String.length_append] at this
  revert this
  decide


/-- The one request `downloadEtag` hands to `client.Do` when the URL parses. -/
theorem downloadEtag_sent_of_url_ok (env : Env) (fs : FS) (url path : String)
    (sum : Option Bytes) (hurl : env.urlErr url = none) :
    (downloadEtag env fs url path sum).sent =
      [some { method := "GET", url := url,
              header := if (fs.read path).isSome then
                  [("If-None-Match", [(fs.read (path ++ "-etag")).getD []])]
                else [] }] := by
  unfold downloadEtag
  simp only [NewRequest, hurl, Except.toOption]
  by_cases hp : (fs.read path).isSome
  · simp only [hp, if_true, Header.Add]
    split <;> [skip; split <;> [skip; split <;> [skip; split <;> [skip; split]]]] <;> rfl
  · simp only [hp, Bool.false_eq_true, if_false]
    split <;> [skip; split <;> [skip; split <;> [skip; split <;> [skip; split]]]] <;> rfl


/-- When a request went out, the URL parsed and the request is the prepared one. -/
theorem downloadEtag_sent_inv (env : Env) (fs : FS) (url path : String)
    (sum : Option Bytes) (r : Request)
    (hsent : (downloadEtag env fs url path sum).sent = [some r]) :
    env.urlErr url = none ∧
    r = { method := "GET", url := url,
          header := if (fs.read path).isSome then
              [("If-None-Match", [(fs.read (path ++ "-etag")).getD []])]
            else [] } := by
  cases hurl : env.urlErr url with
  | none =>
    rw [downloadEtag_sent_of_url_ok env fs url path sum hurl] at hsent
    simp only [List.cons.injEq, Option.some.injEq, and_true] at hsent
    exact ⟨rfl, hsent.symm⟩
  | some e =>
    exfalso
    unfold downloadEtag at hsent
    simp only [NewRequest, hurl, Except.toOption] at hsent
    by_cases hp : (fs.read path).isSome
    · simp [hp] at hsent
    · simp [hp] at hsent

theorem downloadEtag_304 (env : Env) (fs : FS) (url path : String)
    (sum : Option Bytes) (r : Request) (resp : Response)
    (hsent : (downloadEtag env fs url path sum).sent = [some r])
    (hresp : env.roundTrip r = .ok resp)
    (h304 : resp.statusCode = StatusNotModified) :
    (downloadEtag env fs url path sum).result = .ok ∧
    (downloadEtag env fs url path sum).fs = fs := by
  obtain ⟨hurl, hr⟩ := downloadEtag_sent_inv env fs url path sum r hsent
  subst hr
  unfold downloadEtag
  simp only [NewRequest, hurl, Except.toOption]
  by_cases hp : (fs.read path).isSome
  · simp only [hp, if_true, Header.Add] at hresp ⊢
    simp only [hresp, h304, if_true, and_self]
  · simp only [hp, Bool.false_eq_true, if_false] at hresp ⊢
    simp only [hresp, h304, if_true, and_self]


/-- A write without error puts all the data into the file. -/
theorem Env.write_fst_of_ok (env : Env) (p : String) (d : Bytes)
    (h : (env.write p d).2 = none) : (env.write p d).1 = d := by
  unfold Env.write at h ⊢
  cases hc : env.writeCap p with
  | none => rfl
  | some c =>
    obtain ⟨n, e⟩ := c
    simp only [hc] at h ⊢
    by_cases hn : n < d.length
    · simp [hn] at h
    · simp [hn]

/-- A successful `WriteFile` leaves exactly the data in the file and touches no
other file. -/
theorem WriteFile_ok (env : Env) (fs fs2 : FS) (p : String) (d : Bytes)
    (h : WriteFile env fs p d = (fs2, none)) :
    fs2.read p = some d ∧ ∀ q, q ≠ p → fs2.read q = fs.read q := by
  unfold WriteFile at h
  cases ho : env.openErr p with
  | some e => simp [ho] at h
  | none =>
    simp only [ho, Prod.mk.injEq] at h
    obtain ⟨hfs, hw⟩ := h
    subst hfs
    rw [Env.write_fst_of_ok env p d hw]
    exact ⟨FS.read_truncate_append fs p d,
      fun q hq => FS.read_truncate_append_ne fs p q d hq⟩

theorem downloadEtag_ok_full (env : Env) (fs : FS) (url path : String)
    (sum : Option Bytes) (r : Request) (resp : Response)
    (hsent : (downloadEtag env fs url path sum).sent = [some r])
    (hresp : env.roundTrip r = .ok resp)
    (hfull : resp.statusCode ≠ StatusNotModified)
    (hok : (downloadEtag env fs url path sum).result = .ok) :
    (downloadEtag env fs url path sum).fs.read path = some resp.body.data ∧
    (downloadEtag env fs url path sum).fs.read (path ++ "-etag") = some (respEtag resp) ∧
    (sum = none ∨ sum = some (sha256.Sum256 resp.body.data)) := by
  obtain ⟨hurl, hr⟩ := downloadEtag_sent_inv env fs url path sum r hsent
  subst hr
  clear hsent
  have hne : path ≠ path ++ "-etag" := fun h => etagPath_ne path h.symm
  have hbody := FS.read_truncate_append fs path resp.body.data
  unfold downloadEtag at hok ⊢
  simp only [NewRequest, hurl, Except.toOption] at hok ⊢
  by_cases hp : (fs.read path).isSome <;>
  simp only [hp, if_true, Bool.false_eq_true, if_false, Header.Add] at hresp hok ⊢ <;>
  simp only [hresp, hfull, if_false] at hok ⊢ <;>
  (cases ho : env.openErr path <;> simp only [ho] at hok ⊢ <;> [skip; simp at hok]) <;>
  (cases hw : (env.write path resp.body.data).2 <;>
   cases hb : resp.body.err <;>
   cases sum <;>
   simp only [hw, hb] at hok ⊢ <;>
   try (simp at hok; done)) <;>
  (try (rename_i s
        by_cases hs : s = sha256.Sum256 resp.body.data <;>
        simp only [hs, ne_eq, not_true_eq_false, not_false_eq_true, if_true, if_false] at hok ⊢)) <;>
  (try (simp at hok)) <;>
  rw [Env.write_fst_of_ok env path resp.body.data hw] at hok ⊢ <;>
  (cases hW : WriteFile env ((fs.write path []).append path resp.body.data)
      (path ++ "-etag") (respEtag resp) with
   | mk fs2 e2 =>
     cases e2 with
     | some e => simp [hW] at hok
     | none =>
       obtain ⟨h1, h2⟩ := WriteFile_ok env _ fs2 _ _ hW
       simp only [h1, h2 path hne, hbody, true_and, true_or, or_true])


/-- A round trip that fails ends the call with its error, the files as before. -/
theorem downloadEtag_transport (env : Env) (fs : FS) (url path : String)
    (sum : Option Bytes) (r : Request) (e : Error)
    (hsent : (downloadEtag env fs url path sum).sent = [some r])
    (hresp : env.roundTrip r = .error e) :
    (downloadEtag env fs url path sum).result = .err e ∧
    (downloadEtag env fs url path sum).fs = fs := by
  obtain ⟨hurl, hr⟩ := downloadEtag_sent_inv env fs url path sum r hsent
  subst hr
  unfold downloadEtag
  simp only [NewRequest, hurl, Except.toOption]
  by_cases hp : (fs.read path).isSome
  · simp only [hp, if_true, Header.Add] at hresp ⊢
    simp only [hresp, and_self]
  · simp only [hp, Bool.false_eq_true, if_false] at hresp ⊢
    simp only [hresp, and_self]

/-- A full response with nothing failing on the way is stored and the call
returns `nil`. -/
theorem downloadEtag_full_ok (env : Env) (fs : FS) (url path : String)
    (sum : Option Bytes) (r : Request) (resp : Response)
    (hsent : (downloadEtag env fs url path sum).sent = [some r])
    (hresp : env.roundTrip r = .ok resp)
    (hfull : resp.statusCode ≠ StatusNotModified)
    (hbody : resp.body.err = none)
    (hsum : sum = none ∨ sum = some (sha256.Sum256 resp.body.data))
    (hopen : env.openErr path = none) (hopenE : env.openErr (path ++ "-etag") = none)
    (hcap : env.writeCap path = none) (hcapE : env.writeCap (path ++ "-etag") = none) :
    (downloadEtag env fs url path sum).result = .ok := by
  obtain ⟨hurl, hr⟩ := downloadEtag_sent_inv env fs url path sum r hsent
  subst hr
  clear hsent
  unfold downloadEtag
  simp only [NewRequest, hurl, Except.toOption]
  by_cases hp : (fs.read path).isSome <;>
  simp only [hp, if_true, Bool.false_eq_true, if_false, Header.Add] at hresp ⊢ <;>
  simp only [hresp, hfull, if_false, hopen] <;>
  rcases hsum with h | h <;> subst h <;>
  simp [Env.write, WriteFile, hcap, hcapE, hopenE, hbody]

/-- A digest that does not match ends the call with an error, and the body record,
opened with truncation before the check, is left empty. -/
theorem downloadEtag_mismatch (env : Env) (fs : FS) (url path : String)
    (s : Bytes) (r : Request) (resp : Response)
    (hsent : (downloadEtag env fs url path (some s)).sent = [some r])
    (hresp : env.roundTrip r = .ok resp)
    (hfull : resp.statusCode ≠ StatusNotModified)
    (hbody : resp.body.err = none)
    (hsum : s ≠ sha256.Sum256 resp.body.data)
    (hopen : env.openErr path = none) :
    (downloadEtag env fs url path (some s)).result = .err "sha256 mismatch" ∧
    (downloadEtag env fs url path (some s)).fs.read path = some [] := by
  obtain ⟨hurl, hr⟩ := downloadEtag_sent_inv env fs url path _ r hsent
  subst hr
  clear hsent
  have hread := FS.read_write_same fs path []
  unfold downloadEtag
  simp only [NewRequest, hurl, Except.toOption]
  by_cases hp : (fs.read path).isSome <;>
  simp only [hp, if_true, Bool.false_eq_true, if_false, Header.Add] at hresp ⊢ <;>
  simp only [hresp, hfull, if_false, hopen, hbody, ne_eq, hsum, not_false_eq_true, if_true,
    hread, and_self]

/-- A URL that does not parse leaves `req` nil, and the call panics: at
`req.Header.Add` when the body record exists, inside `client.Do` otherwise. -/
theorem downloadEtag_bad_url (env : Env) (fs : FS) (url path : String)
    (sum : Option Bytes) (e : Error) (hurl : env.urlErr url = some e) :
    (downloadEtag env fs url path sum).result =
      (if (fs.read path).isSome then .panic "req.Header.Add" else .panic "client.Do") ∧
    (downloadEtag env fs url path sum).fs = fs := by
  unfold downloadEtag
  simp only [NewRequest, hurl, Except.toOption]
  by_cases hp : (fs.read path).isSome <;> simp [hp]


/-! ## The claims about `downloadEtag` -/

set_option maxRecDepth 100000 in
/-- C1, evaluated where it fails: the cache holds a body, the server sends `NEWDATA`
and the caller supplies 32 zero bytes as digest, which is not the digest of
`NEWDATA`. The call returns the error `sha256 mismatch`, but the body record,
opened with `O_TRUNC` before the digest is compared, is empty afterwards: the
bytes it held are gone. -/
theorem downloadEtag_mismatch_empties_body :
    staleFS.read samplePath = some (bytes "OLD INDEX DATA, LONGER") ∧
    wrongDigest ≠ sha256.Sum256 (bytes "NEWDATA") ∧
    (downloadEtag (sampleEnv.withServer serverNewData) staleFS sampleURL samplePath
      (some wrongDigest)).result = .err "sha256 mismatch" ∧
    (downloadEtag (sampleEnv.withServer serverNewData) staleFS sampleURL samplePath
      (some wrongDigest)).fs.read samplePath = some [] := by
  decide

/-- C2: when the request that went out is answered with status 304, the call
returns `nil` and the file map after the call is the file map before it, whatever
the cache state, the path and the digest argument. -/
theorem downloadEtag_not_modified_leaves_cache (env : Env) (fs : FS) (url path : String)
    (sum : Option Bytes) (r : Request) (resp : Response)
    (hsent : (downloadEtag env fs url path sum).sent = [some r])
    (hresp : env.roundTrip r = .ok resp)
    (h304 : resp.statusCode = StatusNotModified) :
    (downloadEtag env fs url path sum).result = .ok ∧
    (downloadEtag env fs url path sum).fs = fs :=
  downloadEtag_304 env fs url path sum r resp hsent hresp h304

/-- C2 at the scenario of the specification: the cache holds `INDEXDATA` and
`abc123`, the server is asked with `abc123` and answers 304. -/
theorem downloadEtag_not_modified_leaves_cache_witness :
    (downloadEtag (sampleEnv.withServer serverNotModified) cachedFS sampleURL samplePath
      none).sent = [some ⟨"GET", sampleURL, [("If-None-Match", [bytes "abc123"])]⟩] ∧
    (downloadEtag (sampleEnv.withServer serverNotModified) cachedFS sampleURL samplePath
      none).result = .ok ∧
    (downloadEtag (sampleEnv.withServer serverNotModified) cachedFS sampleURL samplePath
      none).fs = cachedFS :=
  ⟨by decide,
   downloadEtag_not_modified_leaves_cache (sampleEnv.withServer serverNotModified) cachedFS
    sampleURL samplePath none ⟨"GET", sampleURL, [("If-None-Match", [bytes "abc123"])]⟩
    ⟨304, [("Etag", [bytes "abc123"])], ⟨[], none⟩⟩ (by decide) rfl rfl⟩

/-- C3: whenever the call returns `nil` on a response whose status is not 304, the
body record holds exactly the response body and the token record exactly the token
`respEtag` takes from the response, whatever the files held before; and the digest,
when one was supplied, is the SHA-256 digest of the body. -/
theorem downloadEtag_update_correct (env : Env) (fs : FS) (url path : String)
    (sum : Option Bytes) (r : Request) (resp : Response)
    (hsent : (downloadEtag env fs url path sum).sent = [some r])
    (hresp : env.roundTrip r = .ok resp)
    (hfull : resp.statusCode ≠ StatusNotModified)
    (hok : (downloadEtag env fs url path sum).result = .ok) :
    (downloadEtag env fs url path sum).fs.read path = some resp.body.data ∧
    (downloadEtag env fs url path sum).fs.read (path ++ "-etag") = some (respEtag resp) ∧
    (sum = none ∨ sum = some (sha256.Sum256 resp.body.data)) :=
  downloadEtag_ok_full env fs url path sum r resp hsent hresp hfull hok

set_option maxRecDepth 100000 in
/-- C3 at a cache whose body is longer than the new one, with the right digest:
afterwards the body record is `NEWDATA` and the token record `def456`. -/
theorem downloadEtag_update_correct_witness :
    (downloadEtag (sampleEnv.withServer serverNewData) staleFS sampleURL samplePath
      (some (sha256.Sum256 (bytes "NEWDATA")))).result = .ok ∧
    (downloadEtag (sampleEnv.withServer serverNewData) staleFS sampleURL samplePath
      (some (sha256.Sum256 (bytes "NEWDATA")))).fs.read samplePath = some (bytes "NEWDATA") ∧
    (downloadEtag (sampleEnv.withServer serverNewData) staleFS sampleURL samplePath
      (some (sha256.Sum256 (bytes "NEWDATA")))).fs.read (samplePath ++ "-etag")
        = some (bytes "def456") :=
  have h := downloadEtag_update_correct (sampleEnv.withServer serverNewData) staleFS
    sampleURL samplePath (some (sha256.Sum256 (bytes "NEWDATA")))
    ⟨"GET", sampleURL, [("If-None-Match", [bytes "abc123"])]⟩
    ⟨200, [("Etag", [bytes "def456"])], ⟨bytes "NEWDATA", none⟩⟩
    (by decide) rfl (by decide) (by decide)
  ⟨by decide, h.1, h.2.1⟩


/-- C4 as stated fails at both ends. With a token record and no body record the
request carries no `If-None-Match` although the token `abc123` is stored; with a
body record and no token record the request carries an `If-None-Match`, with the
empty value, although no token is stored. -/
theorem downloadEtag_precondition_not_by_token_alone :
    (tokenOnlyFS.read (samplePath ++ "-etag") = some (bytes "abc123") ∧
     (downloadEtag sampleEnv tokenOnlyFS sampleURL samplePath none).sent
       = [some ⟨"GET", sampleURL, []⟩]) ∧
    (bodyOnlyFS.read (samplePath ++ "-etag") = none ∧
     (downloadEtag sampleEnv bodyOnlyFS sampleURL samplePath none).sent
       = [some ⟨"GET", sampleURL, [("If-None-Match", [[]])]⟩]) := by
  decide

/-- C4, amended: when the URL parses, exactly one request goes out, a `GET` of
the URL, and its precondition is decided by the body record: if a file exists at
`path`, the header is exactly one `If-None-Match` whose value is the content of the
token record (empty when there is no token record); if no file exists at `path`,
the header is empty, whether or not a token record is stored. -/
theorem downloadEtag_conditional_request (env : Env) (fs : FS) (url path : String)
    (sum : Option Bytes) (hurl : env.urlErr url = none) :
    (downloadEtag env fs url path sum).sent =
      [some { method := "GET", url := url,
              header := if (fs.read path).isSome then
                  [("If-None-Match", [(fs.read (path ++ "-etag")).getD []])]
                else [] }] :=
  downloadEtag_sent_of_url_ok env fs url path sum hurl

/-- C4 amended, at the cache that holds `INDEXDATA` and the token `abc123`: the
request carries `If-None-Match: abc123`. -/
theorem downloadEtag_conditional_request_witness :
    sampleEnv.urlErr sampleURL = none ∧
    (downloadEtag sampleEnv cachedFS sampleURL samplePath none).sent =
      [some ⟨"GET", sampleURL, [("If-None-Match", [bytes "abc123"])]⟩] :=
  ⟨rfl, downloadEtag_conditional_request sampleEnv cachedFS sampleURL samplePath none rfl⟩

/-- C5, evaluated where it fails: the server answers 404 with an error page. The
call returns `nil`, the body record holds the error page in place of the index
and the token record is overwritten with the empty token. -/
theorem downloadEtag_stores_not_found_page :
    (downloadEtag (sampleEnv.withServer serverNotFound) cachedFS sampleURL samplePath
      none).result = .ok ∧
    (downloadEtag (sampleEnv.withServer serverNotFound) cachedFS sampleURL samplePath
      none).fs.read samplePath = some (bytes "404 page not found") ∧
    (downloadEtag (sampleEnv.withServer serverNotFound) cachedFS sampleURL samplePath
      none).fs.read (samplePath ++ "-etag") = some [] := by
  decide

/-- C6: when the round trip of the request that went out fails with an error, the
call returns that error and the file map after the call is the file map before it. -/
theorem downloadEtag_transport_failure (env : Env) (fs : FS) (url path : String)
    (sum : Option Bytes) (r : Request) (e : Error)
    (hsent : (downloadEtag env fs url path sum).sent = [some r])
    (hresp : env.roundTrip r = .error e) :
    (downloadEtag env fs url path sum).result = .err e ∧
    (downloadEtag env fs url path sum).fs = fs :=
  downloadEtag_transport env fs url path sum r e hsent hresp

/-- C6 at a server that cannot be reached. -/
theorem downloadEtag_transport_failure_witness :
    (downloadEtag (sampleEnv.withServer serverDown) cachedFS sampleURL samplePath
      none).result = .err "dial tcp: connection refused" ∧
    (downloadEtag (sampleEnv.withServer serverDown) cachedFS sampleURL samplePath
      none).fs = cachedFS :=
  downloadEtag_transport_failure (sampleEnv.withServer serverDown) cachedFS sampleURL
    samplePath none ⟨"GET", sampleURL, [("If-None-Match", [bytes "abc123"])]⟩
    "dial tcp: connection refused" (by decide) rfl

/-- C7: with no file at `path`, a URL that parses and a disk that takes the two
records, the request that goes out has an empty header (no `If-None-Match`), and
for every response to it whose status is not 304 and whose body arrives whole,
without a digest the call returns `nil`, the body record holds the body and the
token record holds the token of the response. -/
theorem downloadEtag_first_fetch (env : Env) (fs : FS) (url path : String)
    (resp : Response)
    (hnew : fs.read path = none)
    (hurl : env.urlErr url = none)
    (hresp : env.roundTrip ⟨"GET", url, []⟩ = .ok resp)
    (hfull : resp.statusCode ≠ StatusNotModified)
    (hbody : resp.body.err = none)
    (hopen : env.openErr path = none) (hopenE : env.openErr (path ++ "-etag") = none)
    (hcap : env.writeCap path = none) (hcapE : env.writeCap (path ++ "-etag") = none) :
    (downloadEtag env fs url path none).sent = [some ⟨"GET", url, []⟩] ∧
    (downloadEtag env fs url path none).result = .ok ∧
    (downloadEtag env fs url path none).fs.read path = some resp.body.data ∧
    (downloadEtag env fs url path none).fs.read (path ++ "-etag") = some (respEtag resp) := by
  have hsent : (downloadEtag env fs url path none).sent = [some ⟨"GET", url, []⟩] := by
    rw [downloadEtag_sent_of_url_ok env fs url path none hurl]
    simp [hnew]
  have hok := downloadEtag_full_ok env fs url path none _ resp hsent hresp hfull hbody
    (Or.inl rfl) hopen hopenE hcap hcapE
  have h := downloadEtag_ok_full env fs url path none _ resp hsent hresp hfull hok
  exact ⟨hsent, hok, h.1, h.2.1⟩

/-- C7 at the scenario of the specification: empty cache, body `INDEXDATA`, token
`abc123`, no digest. -/
theorem downloadEtag_first_fetch_witness :
    (downloadEtag sampleEnv [] sampleURL samplePath none).sent
      = [some ⟨"GET", sampleURL, []⟩] ∧
    (downloadEtag sampleEnv [] sampleURL samplePath none).result = .ok ∧
    (downloadEtag sampleEnv [] sampleURL samplePath none).fs.read samplePath
      = some (bytes "INDEXDATA") ∧
    (downloadEtag sampleEnv [] sampleURL samplePath none).fs.read (samplePath ++ "-etag")
      = some (bytes "abc123") :=
  downloadEtag_first_fetch sampleEnv [] sampleURL samplePath
    ⟨200, [("Etag", [bytes "abc123"])], ⟨bytes "INDEXDATA", none⟩⟩
    rfl rfl rfl (by decide) rfl rfl rfl rfl rfl

/-- C8: `respEtag` returns the first value under the key `Etag` of the response
header, and the empty string when the key is missing or has no values; so whenever
the call returns `nil` on a response that is not a 304 and has no `Etag` value, the
token record is empty afterwards, whatever token the cache held. -/
theorem respEtag_first_value_and_overwrite :
    (∀ (resp : Response) (e : Bytes) (es : List Bytes),
      resp.header.lookup "Etag" = some (e :: es) → respEtag resp = e) ∧
    (∀ resp : Response, resp.header.lookup "Etag" = none → respEtag resp = []) ∧
    (∀ resp : Response, resp.header.lookup "Etag" = some [] → respEtag resp = []) ∧
    (∀ (env : Env) (fs : FS) (url path : String) (sum : Option Bytes) (r : Request)
      (resp : Response),
      (downloadEtag env fs url path sum).sent = [some r] →
      env.roundTrip r = .ok resp →
      resp.statusCode ≠ StatusNotModified →
      (resp.header.lookup "Etag" = none ∨ resp.header.lookup "Etag" = some []) →
      (downloadEtag env fs url path sum).result = .ok →
      (downloadEtag env fs url path sum).fs.read (path ++ "-etag") = some []) := by
  refine ⟨?_, ?_, ?_, ?_⟩
  · intro resp e es h
    simp [respEtag, h]
  · intro resp h
    simp [respEtag, h]
  · intro resp h
    simp [respEtag, h]
  · intro env fs url path sum r resp hsent hresp hfull hno hok
    have h := (downloadEtag_ok_full env fs url path sum r resp hsent hresp hfull hok).2.1
    have he : respEtag resp = [] := by
      rcases hno with h0 | h0 <;> simp [respEtag, h0]
    rw [h, he]

/-- C8 at a cache that holds the token `abc123` and a server that sends `NEWDATA`
without an entity tag: the token record is empty afterwards. -/
theorem respEtag_first_value_and_overwrite_witness :
    cachedFS.read (samplePath ++ "-etag") = some (bytes "abc123") ∧
    (downloadEtag (sampleEnv.withServer serverNoEtag) cachedFS sampleURL samplePath
      none).result = .ok ∧
    (downloadEtag (sampleEnv.withServer serverNoEtag) cachedFS sampleURL samplePath
      none).fs.read (samplePath ++ "-etag") = some [] :=
  ⟨by decide, by decide,
   respEtag_first_value_and_overwrite.2.2.2 (sampleEnv.withServer serverNoEtag) cachedFS
    sampleURL samplePath none ⟨"GET", sampleURL, [("If-None-Match", [bytes "abc123"])]⟩
    ⟨200, [("Content-Type", [bytes "application/java-archive"])], ⟨bytes "NEWDATA", none⟩⟩
    (by decide) rfl (by decide) (Or.inl (by decide)) (by decide)⟩

/-- C10, evaluated where it fails: the URL does not parse, `http.NewRequest`
returns a nil request, and its error is never looked at. With a body record in the
cache the call panics at `req.Header.Add` on the nil request; with an empty cache
the nil request is handed to `client.Do`, which panics. In neither case does the
call return an error. -/
theorem downloadEtag_nil_request_panics :
    NewRequest badUrlEnv "GET" ":" = .error "missing protocol scheme" ∧
    (downloadEtag badUrlEnv cachedFS ":" samplePath none).result = .panic "req.Header.Add" ∧
    (downloadEtag badUrlEnv [] ":" samplePath none).result = .panic "client.Do" ∧
    (downloadEtag badUrlEnv [] ":" samplePath none).sent = [none] :=
  ⟨rfl, by decide, by decide, by decide⟩


/-! ## The claim about `indexPath` -/

/-- C9: `indexPath` gives the same result for any two names, under the same
surroundings; when the cache directory is known and the application directory can
be made, that result is `Join(cacheDir, "fdroidcl", repoName + ".jar")`. -/
theorem indexPath_ignores_name (env : Env) (n1 n2 : String) :
    indexPath env n1 = indexPath env n2 ∧
    ∀ cache : String, env.cacheDir = .ok cache →
      env.mkdirErr (filepath.Join [cache, "fdroidcl"]) = none →
      indexPath env n1 = .ok (filepath.Join [cache, "fdroidcl", env.repoName ++ ".jar"]) := by
  refine ⟨rfl, ?_⟩
  intro cache hc hm
  simp only [indexPath, appSubdir, hc, List.append_nil, hm]
  rw [filepath.Join_Join]

/-- C9 at two different names: both map to the cache file of the repository
`fdroid`. -/
theorem indexPath_ignores_name_witness :
    indexPath sampleEnv "fdroid" = indexPath sampleEnv "fdroid-archive" ∧
    indexPath sampleEnv "fdroid"
      = .ok (filepath.Join ["/home/u/.cache", "fdroidcl", "fdroid" ++ ".jar"]) ∧
    filepath.Join ["/home/u/.cache", "fdroidcl", "fdroid" ++ ".jar"]
      = "/home/u/.cache/fdroidcl/fdroid.jar" :=
  ⟨(indexPath_ignores_name sampleEnv "fdroid" "fdroid-archive").1,
   (indexPath_ignores_name sampleEnv "fdroid" "fdroid-archive").2 "/home/u/.cache" rfl rfl,
   by decide⟩

end Fdroidcl
